import Mathlib

/-!
Verification of the column-level diagnostic and auto-correction engine of
the H-DATA application (src/app.py).

The embedding models the two code regions the claims are about:

* `analyse_data` (src/app.py lines 70-81): the per-column diagnostic loop,
  appending one report row per triggered check (missing values, 3-sigma
  outliers, column-scoped duplicates).
* the auto-correction loop (src/app.py lines 92-101): iterates over the
  report rows and applies, in place on the working dataframe, a median
  fill for missing values, a median substitution for outliers, and a
  row-level drop of duplicate rows keyed on one column.

Modelling decisions, each noted at the definition it concerns:

* A dataframe is column-major: a list of named columns, each carrying the
  pandas dtype information that matters here (whether the dtype is one of
  np.float64 / np.int64) and a list of cells.
* A cell is either missing (NaN / None), a number, or a text value.
  Numbers are rationals: the pandas code computes in float64, and every
  comparison the claims depend on is far from the float rounding error,
  so exact arithmetic is the faithful idealisation.
* pandas `Series.std()` uses the sample standard deviation (ddof = 1) and
  both `mean()` and `std()` skip missing cells.  The outlier comparison
  `|x - mean| > 3 * std` is represented by its exact square
  `(x - mean)^2 * (n - 1) > 9 * sqDevSum`, equivalent for n >= 2 since
  both sides of the original comparison are nonnegative; for n < 2 the
  pandas std is NaN and every float comparison with NaN is false, which
  the `2 <= n` guard reproduces.
* pandas `Series.duplicated()` (keep = first) marks a cell when an equal
  value occurs earlier in the column, and treats NaN as equal to NaN;
  decidable equality on `Val` (where `na = na` holds) reproduces this.
* The correction loop runs with `inplace=True` / direct column
  assignment: the script has a single dataframe binding `df` which the
  loop overwrites.  `AppState` and `runCorrectionBlock` model that
  binding explicitly.
-/

namespace HData

/-- A cell of the dataframe: missing (NaN/None), numeric, or text. -/
inductive Val where
  | na : Val
  | num (q : ℚ) : Val
  | txt (s : String) : Val
deriving DecidableEq

/-- A named column: `numeric` records whether the pandas dtype is one of
np.float64 / np.int64 (the test at src/app.py lines 75 and 95), `cells`
the column values in row order. -/
structure Column where
  name : String
  numeric : Bool
  cells : List Val
deriving DecidableEq

/-- A dataframe, column-major.  Column iteration order is list order. -/
abbrev Dataset := List Column

/-- The three diagnostic categories of src/app.py lines 73-80. -/
inductive Problem where
  | manquantes : Problem
  | aberrantes : Problem
  | doublons : Problem
deriving DecidableEq

/-- The label written in the report column named Problème; the correction
loop recognises a row by substring tests on this label ("manquantes" at
line 94, "aberrantes" at line 97, "Doublons" at line 100), and each of the
three substrings occurs in exactly one of the three labels, so matching on
the `Problem` constructor is equivalent. -/
def label : Problem → String
  | Problem.manquantes => "Valeurs manquantes"
  | Problem.aberrantes => "Valeurs aberrantes"
  | Problem.doublons => "Doublons"

/-- The remedy text of the report column named Proposition IA. -/
def proposal : Problem → String
  | Problem.manquantes => "Remplacer par moyenne/médiane"
  | Problem.aberrantes => "Remplacer par médiane"
  | Problem.doublons => "Supprimer doublons"

/-- One row of the diagnostic dataframe built at src/app.py line 81:
(Colonne, Problème, Nb Occurrences, Proposition IA). -/
structure Issue where
  column : String
  problem : Problem
  count : ℕ
  proposition : String
deriving DecidableEq

/-- The numeric (non-missing) values of a column, in row order: what the
NaN-skipping pandas reductions mean/std/median operate on. -/
def numsOf (cells : List Val) : List ℚ :=
  cells.filterMap fun v => match v with | Val.num q => some q | _ => none

/-- df[col].isnull().sum() (src/app.py line 73). -/
def missingCount (cells : List Val) : ℕ :=
  cells.countP fun v => decide (v = Val.na)

/-- df[col].mean(): NaN-skipping arithmetic mean (src/app.py line 76). -/
def colMean (cells : List Val) : ℚ :=
  (numsOf cells).sum / (numsOf cells).length

/-- Sum of squared deviations from the mean; the pandas sample variance of
src/app.py line 76 is this divided by (n - 1). -/
def sqDevSum (cells : List Val) : ℚ :=
  ((numsOf cells).map fun x => (x - colMean cells) ^ 2).sum

/-- The elementwise test (df[col] - df[col].mean()).abs() > 3 * df[col].std()
of src/app.py line 76, in exact form: for a numeric cell x it is
(x - mean)^2 * (n - 1) > 9 * sqDevSum, the square of |x - mean| > 3 * std
(std = sqrt (sqDevSum / (n - 1)), ddof = 1); for a missing or text cell,
and when fewer than 2 numeric values exist (std is NaN in pandas, making
the float comparison false), the test is false. -/
def isOutlier (cells : List Val) (v : Val) : Bool :=
  match v with
  | Val.num q => decide (2 ≤ (numsOf cells).length ∧
      9 * sqDevSum cells < (q - colMean cells) ^ 2 * (((numsOf cells).length - 1 : ℕ) : ℚ))
  | _ => false

/-- ((df[col] - df[col].mean()).abs() > 3 * df[col].std()).sum()
(src/app.py line 76). -/
def outlierCount (cells : List Val) : ℕ :=
  cells.countP (isOutlier cells)

/-- df[col].duplicated() with keep = first: a cell is flagged when an equal
value (NaN counting as equal to NaN, as in pandas) appears earlier in the
column.  `seen` is the accumulator of values already passed. -/
def dupFlags (seen : List Val) : List Val → List Bool
  | [] => []
  | v :: vs => decide (v ∈ seen) :: dupFlags (v :: seen) vs

/-- df[col].duplicated() (src/app.py lines 79-80). -/
def duplicated (cells : List Val) : List Bool :=
  dupFlags [] cells

/-- df[col].duplicated().sum() (src/app.py line 80). -/
def dupCount (cells : List Val) : ℕ :=
  (duplicated cells).count true

/-- df[col].duplicated().any() (src/app.py line 79). -/
def hasDup (cells : List Val) : Bool :=
  (duplicated cells).any id

/-- pandas median of a list of numbers: middle element of the sorted list,
or the average of the two middle elements for an even count. -/
def medianQ (l : List ℚ) : ℚ :=
  let s := List.insertionSort (fun a b => a ≤ b) l
  if s.length % 2 = 1 then s.getD (s.length / 2) 0
  else (s.getD (s.length / 2 - 1) 0 + s.getD (s.length / 2) 0) / 2

/-- df[col].median() as a cell value: NaN-skipping, and NaN itself when the
column has no numeric values (pandas median of an empty selection). -/
def medianVal (cells : List Val) : Val :=
  if numsOf cells = [] then Val.na else Val.num (medianQ (numsOf cells))

/-- The ordered list of report rows one column contributes: the three
checks of src/app.py lines 73-80 in program order (missing values, then
outliers, then duplicates), each appending at most one row. -/
def colIssues (col : Column) : List Issue :=
  (if 0 < missingCount col.cells then
    [⟨col.name, Problem.manquantes, missingCount col.cells, proposal Problem.manquantes⟩]
  else []) ++
  ((if col.numeric = true ∧ 0 < outlierCount col.cells then
    [⟨col.name, Problem.aberrantes, outlierCount col.cells, proposal Problem.aberrantes⟩]
  else []) ++
  (if hasDup col.cells = true then
    [⟨col.name, Problem.doublons, dupCount col.cells, proposal Problem.doublons⟩]
  else []))

/-- The body of the `for col in df.columns` loop of src/app.py lines 72-80,
acting on the accumulated `diag` list. -/
def analyseStep (diag : List Issue) (col : Column) : List Issue :=
  let d1 := if 0 < missingCount col.cells then
      diag ++ [⟨col.name, Problem.manquantes, missingCount col.cells,
        proposal Problem.manquantes⟩]
    else diag
  let d2 := if col.numeric = true ∧ 0 < outlierCount col.cells then
      d1 ++ [⟨col.name, Problem.aberrantes, outlierCount col.cells,
        proposal Problem.aberrantes⟩]
    else d1
  if hasDup col.cells = true then
      d2 ++ [⟨col.name, Problem.doublons, dupCount col.cells,
        proposal Problem.doublons⟩]
    else d2

/-- analyse_data (src/app.py lines 70-81): the diagnostic loop over the
columns, returning the report rows in insertion order. -/
def analyse_data (df : Dataset) : List Issue :=
  df.foldl analyseStep []

/-- df[col].fillna(df[col].median(), inplace=True) (src/app.py line 96):
missing cells become the column median; when the median is itself NaN
(no numeric value in the column) the fill leaves the cells missing. -/
def fillnaMedian (cells : List Val) : List Val :=
  cells.map fun v => if v = Val.na then medianVal cells else v

/-- np.where((df[col] - mean).abs() > 3*std, df[col].median(), df[col])
(src/app.py lines 98-99): cells failing the 3-sigma test are kept, the
others are replaced by the column median, both computed from the current
cells. -/
def replaceOutliers (cells : List Val) : List Val :=
  cells.map fun v => if isOutlier cells v then medianVal cells else v

/-- The rows drop_duplicates keeps: the negation of the duplicated flags. -/
def keepMask (cells : List Val) : List Bool :=
  (duplicated cells).map fun b => !b

/-- Row selection by a boolean mask, as pandas applies it to every column
when rows are dropped. -/
def maskFilter : List Bool → List Val → List Val
  | b :: ms, v :: vs => if b then v :: maskFilter ms vs else maskFilter ms vs
  | _, _ => []

/-- df[c]: the first column (pandas: the unique column) named c. -/
def getCol (df : Dataset) (c : String) : Option Column :=
  df.find? fun col => decide (col.name = c)

/-- df.drop_duplicates(subset=[col], inplace=True) (src/app.py line 101):
keep the rows whose value in the keyed column is not a repeat of an
earlier value, deleting those rows from every column. -/
def dropDuplicates (df : Dataset) (c : String) : Dataset :=
  match getCol df c with
  | none => df
  | some col => df.map fun cl => { cl with cells := maskFilter (keepMask col.cells) cl.cells }

/-- The body of the correction loop for one report row (src/app.py lines
92-101).  Exactly one of the three substring tests on the row label
matches (see `label`), selected here by the `Problem` constructor:
missing-value rows median-fill the column only when its dtype is numeric
(the dtype re-check of line 95), outlier rows recompute mean/std/median
from the current column and substitute, duplicate rows drop rows. -/
def applyRow (df : Dataset) (i : Issue) : Dataset :=
  match i.problem with
  | Problem.manquantes =>
      df.map fun cl => if cl.name = i.column ∧ cl.numeric = true then
          { cl with cells := fillnaMedian cl.cells } else cl
  | Problem.aberrantes =>
      df.map fun cl => if cl.name = i.column then
          { cl with cells := replaceOutliers cl.cells } else cl
  | Problem.doublons => dropDuplicates df i.column

/-- The correction loop `for _, row in diag_df.iterrows()` (src/app.py
lines 92-101), processing the report rows in order over the evolving
dataframe. -/
def applyCorrections (df : Dataset) (report : List Issue) : Dataset :=
  report.foldl applyRow df

/-- The script state visible to the caller: the single dataframe binding
`df` of src/app.py, which the correction loop updates in place. -/
structure AppState where
  df : Dataset
deriving DecidableEq

/-- The auto-correction block with the checkbox ticked (src/app.py lines
91-103): the report is the one computed at line 83 from the current df,
and the loop overwrites the one and only dataframe binding. -/
def runCorrectionBlock (st : AppState) : AppState :=
  { df := applyCorrections st.df (analyse_data st.df) }

/-- The detection predicate of spec section 4.1 for each issue kind:
missing count positive; a numeric column with some cell more than three
sample standard deviations from the mean; some cell equal to a cell
earlier in the column. -/
def specTrigger (p : Problem) (col : Column) : Prop :=
  match p with
  | Problem.manquantes => 0 < missingCount col.cells
  | Problem.aberrantes => col.numeric = true ∧ ∃ v ∈ col.cells, isOutlier col.cells v = true
  | Problem.doublons => ∃ i j : ℕ, j < i ∧ i < col.cells.length ∧
      col.cells.getD i Val.na = col.cells.getD j Val.na

end HData

namespace HData

/-! Structural lemmas about the diagnostic loop. -/

theorem analyseStep_eq (diag : List Issue) (col : Column) :
    analyseStep diag col = diag ++ colIssues col := by
  unfold analyseStep colIssues
  split_ifs <;> simp

theorem analyse_foldl_aux (df : Dataset) :
    ∀ acc : List Issue, df.foldl analyseStep acc = acc ++ df.flatMap colIssues := by
  induction df with
  | nil => intro acc; simp
  | cons c cs ih =>
    intro acc
    simp only [List.foldl_cons, analyseStep_eq, ih, List.flatMap_cons, List.append_assoc]

theorem analyse_eq_flatMap (df : Dataset) :
    analyse_data df = df.flatMap colIssues := by
  simpa using analyse_foldl_aux df []

theorem mem_ite_singleton {α : Type} {c : Prop} [Decidable c] {a x : α} :
    a ∈ (if c then [x] else ([] : List α)) ↔ c ∧ a = x := by
  split_ifs with h <;> simp [h]

theorem mem_colIssues {iss : Issue} {col : Column} :
    iss ∈ colIssues col ↔
      (0 < missingCount col.cells ∧
        iss = ⟨col.name, Problem.manquantes, missingCount col.cells,
          proposal Problem.manquantes⟩) ∨
      ((col.numeric = true ∧ 0 < outlierCount col.cells) ∧
        iss = ⟨col.name, Problem.aberrantes, outlierCount col.cells,
          proposal Problem.aberrantes⟩) ∨
      (hasDup col.cells = true ∧
        iss = ⟨col.name, Problem.doublons, dupCount col.cells,
          proposal Problem.doublons⟩) := by
  unfold colIssues
  simp only [List.mem_append, mem_ite_singleton]

theorem colIssues_column {iss : Issue} {col : Column} (h : iss ∈ colIssues col) :
    iss.column = col.name := by
  rcases mem_colIssues.mp h with ⟨-, rfl⟩ | ⟨-, rfl⟩ | ⟨-, rfl⟩ <;> rfl

/-! Lemmas about the duplicated flags. -/

theorem dupFlags_length (cells : List Val) :
    ∀ seen : List Val, (dupFlags seen cells).length = cells.length := by
  induction cells with
  | nil => intro seen; rfl
  | cons v vs ih => intro seen; simp [dupFlags, ih]

theorem dupFlags_getD (cells : List Val) :
    ∀ (seen : List Val) (i : ℕ), i < cells.length →
      (dupFlags seen cells).getD i false =
        decide (cells.getD i Val.na ∈ seen ∨ cells.getD i Val.na ∈ cells.take i) := by
  induction cells with
  | nil => intro seen i h; simp at h
  | cons v vs ih =>
    intro seen i h
    cases i with
    | zero => simp [dupFlags]
    | succ n =>
      have hn : n < vs.length := by simpa using h
      simp only [dupFlags, List.getD_cons_succ, List.take_succ_cons]
      rw [ih (v :: seen) n hn, decide_eq_decide]
      simp only [List.mem_cons]
      tauto

theorem duplicated_length (cells : List Val) : (duplicated cells).length = cells.length :=
  dupFlags_length cells []

theorem duplicated_getD {cells : List Val} {i : ℕ} (h : i < cells.length) :
    (duplicated cells).getD i false = decide (cells.getD i Val.na ∈ cells.take i) := by
  rw [duplicated, dupFlags_getD cells [] i h, decide_eq_decide]
  simp

theorem hasDup_iff {cells : List Val} :
    hasDup cells = true ↔
      ∃ i j : ℕ, j < i ∧ i < cells.length ∧ cells.getD i Val.na = cells.getD j Val.na := by
  constructor
  · intro h
    rw [hasDup, List.any_eq_true] at h
    obtain ⟨b, hb, hid⟩ := h
    rw [List.mem_iff_getElem] at hb
    obtain ⟨n, hn, hbn⟩ := hb
    have hn' : n < cells.length := by
      simpa [duplicated_length] using hn
    have hfl : (duplicated cells).getD n false = true := by
      rw [List.getD_eq_getElem _ _ hn, hbn]
      simpa using hid
    rw [duplicated_getD hn'] at hfl
    have hmem : cells.getD n Val.na ∈ cells.take n := of_decide_eq_true hfl
    rw [List.mem_take_iff_getElem] at hmem
    obtain ⟨j, hj, hja⟩ := hmem
    have hj1 : j < n := lt_of_lt_of_le hj inf_le_left
    have hj2 : j < cells.length := lt_of_lt_of_le hj inf_le_right
    exact ⟨n, j, hj1, hn', by rw [List.getD_eq_getElem _ _ hj2, hja]⟩
  · rintro ⟨i, j, hji, hi, hval⟩
    rw [hasDup, List.any_eq_true]
    refine ⟨true, ?_, rfl⟩
    have hflag : (duplicated cells).getD i false = true := by
      rw [duplicated_getD hi, decide_eq_true_eq, List.mem_take_iff_getElem]
      have hj : j < cells.length := lt_trans hji hi
      refine ⟨j, lt_inf_iff.mpr ⟨hji, hj⟩, ?_⟩
      rw [← List.getD_eq_getElem cells Val.na hj, hval]
    have hi' : i < (duplicated cells).length := by
      simpa [duplicated_length] using hi
    rw [List.getD_eq_getElem _ _ hi'] at hflag
    rw [← hflag]
    exact List.getElem_mem hi'

theorem dupCount_pos_iff {cells : List Val} :
    0 < dupCount cells ↔ hasDup cells = true := by
  rw [dupCount, hasDup, List.count_pos_iff, List.any_eq_true]
  simp

end HData

namespace HData

/-! Counting lemmas: duplicates versus distinct values. -/

theorem dupFlags_count_aux (cells : List Val) :
    ∀ seen : List Val,
      (dupFlags seen cells).count true + (cells.toFinset \ seen.toFinset).card =
        cells.length := by
  induction cells with
  | nil => intro seen; simp [dupFlags]
  | cons v vs ih =>
    intro seen
    by_cases hv : v ∈ seen
    · have hseen : (v :: seen).toFinset = seen.toFinset := by
        simp [List.toFinset_cons, Finset.insert_eq_self, List.mem_toFinset, hv]
      have hsd : (v :: vs).toFinset \ seen.toFinset = vs.toFinset \ seen.toFinset := by
        rw [List.toFinset_cons, Finset.insert_sdiff_of_mem]
        simpa [List.mem_toFinset] using hv
      have := ih (v :: seen)
      rw [hseen] at this
      simp only [dupFlags, hv, decide_True, List.count_cons_self, List.length_cons, hsd]
      omega
    · have hseen : (v :: seen).toFinset = insert v seen.toFinset := List.toFinset_cons
      have hvset : v ∉ seen.toFinset := by simpa [List.mem_toFinset] using hv
      have hsd : ((v :: vs).toFinset \ seen.toFinset).card =
          (vs.toFinset \ (v :: seen).toFinset).card + 1 := by
        rw [List.toFinset_cons, Finset.insert_sdiff_of_not_mem _ hvset, hseen,
          Finset.sdiff_insert]
        by_cases hmem : v ∈ vs.toFinset \ seen.toFinset
        · rw [Finset.insert_eq_self.mpr hmem, Finset.card_erase_of_mem hmem]
          have : 0 < (vs.toFinset \ seen.toFinset).card := Finset.card_pos.mpr ⟨v, hmem⟩
          omega
        · rw [Finset.card_insert_of_not_mem hmem, Finset.erase_eq_of_not_mem hmem]
      have := ih (v :: seen)
      simp only [dupFlags, hv, decide_False, List.length_cons]
      rw [List.count_cons_of_ne (by simp)]
      omega

theorem dupCount_add_dedup (cells : List Val) :
    dupCount cells + cells.dedup.length = cells.length := by
  have h := dupFlags_count_aux cells []
  simpa [dupCount, duplicated, List.card_toFinset] using h

/-! Lemmas about mask filtering (row dropping). -/

theorem maskFilter_length :
    ∀ (mask : List Bool) (l : List Val), mask.length = l.length →
      (maskFilter mask l).length = mask.count true := by
  intro mask
  induction mask with
  | nil => intro l h; cases l <;> simp_all [maskFilter]
  | cons b ms ih =>
    intro l h
    cases l with
    | nil => simp at h
    | cons v vs =>
      have hlen : ms.length = vs.length := by simpa using h
      cases b <;> simp [maskFilter, ih vs hlen, List.count_cons]

theorem boolNegMap_count (l : List Bool) :
    (l.map fun b => !b).count true + l.count true = l.length := by
  induction l with
  | nil => rfl
  | cons b bs ih => cases b <;> simp [List.count_cons, ih] <;> omega

theorem keepMask_length (cells : List Val) : (keepMask cells).length = cells.length := by
  simp [keepMask, duplicated_length]

theorem keepMask_count (cells : List Val) :
    (keepMask cells).count true + dupCount cells = cells.length := by
  have := boolNegMap_count (duplicated cells)
  simpa [keepMask, dupCount, duplicated_length] using this

/-! The rows drop_duplicates keeps from the keyed column itself: first
occurrences, hence pairwise distinct; and every value present in the
column survives through its first occurrence. -/

theorem kept_nodup_aux (cells : List Val) :
    ∀ seen : List Val,
      (maskFilter ((dupFlags seen cells).map fun b => !b) cells).Nodup ∧
      ∀ v ∈ maskFilter ((dupFlags seen cells).map fun b => !b) cells, v ∉ seen := by
  induction cells with
  | nil => intro seen; simp [dupFlags, maskFilter]
  | cons v vs ih =>
    intro seen
    by_cases hv : v ∈ seen
    · have : (maskFilter ((dupFlags seen (v :: vs)).map fun b => !b) (v :: vs)) =
          maskFilter ((dupFlags (v :: seen) vs).map fun b => !b) vs := by
        simp [dupFlags, maskFilter, hv]
      rw [this]
      refine ⟨(ih (v :: seen)).1, fun w hw => ?_⟩
      have := (ih (v :: seen)).2 w hw
      intro hws
      exact this (List.mem_cons_of_mem v hws)
    · have : (maskFilter ((dupFlags seen (v :: vs)).map fun b => !b) (v :: vs)) =
          v :: maskFilter ((dupFlags (v :: seen) vs).map fun b => !b) vs := by
        simp [dupFlags, maskFilter, hv]
      rw [this]
      obtain ⟨hnd, hmem⟩ := ih (v :: seen)
      constructor
      · exact List.nodup_cons.mpr ⟨fun hvin => hmem v hvin (List.mem_cons_self v seen), hnd⟩
      · intro w hw
        rcases List.mem_cons.mp hw with rfl | hw2
        · exact hv
        · intro hws
          exact hmem w hw2 (List.mem_cons_of_mem v hws)

theorem kept_mem_aux (cells : List Val) :
    ∀ (seen : List Val) (v : Val), v ∈ cells → v ∉ seen →
      v ∈ maskFilter ((dupFlags seen cells).map fun b => !b) cells := by
  induction cells with
  | nil => intro seen v hv; simp at hv
  | cons u vs ih =>
    intro seen v hv hvs
    by_cases hu : u ∈ seen
    · have heq : (maskFilter ((dupFlags seen (u :: vs)).map fun b => !b) (u :: vs)) =
          maskFilter ((dupFlags (u :: seen) vs).map fun b => !b) vs := by
        simp [dupFlags, maskFilter, hu]
      rw [heq]
      have hvu : v ≠ u := fun h => hvs (h ▸ hu)
      have hvvs : v ∈ vs := by
        rcases List.mem_cons.mp hv with h | h
        · exact absurd h hvu
        · exact h
      exact ih (u :: seen) v hvvs (by simp [hvu, hvs])
    · have heq : (maskFilter ((dupFlags seen (u :: vs)).map fun b => !b) (u :: vs)) =
          u :: maskFilter ((dupFlags (u :: seen) vs).map fun b => !b) vs := by
        simp [dupFlags, maskFilter, hu]
      rw [heq]
      rcases List.mem_cons.mp hv with rfl | hvvs
      · exact List.mem_cons_self v _
      · by_cases hvu : v = u
        · exact hvu ▸ List.mem_cons_self u _
        · exact List.mem_cons_of_mem u (ih (u :: seen) v hvvs (by simp [hvu, hvs]))

theorem kept_nodup (cells : List Val) :
    (maskFilter (keepMask cells) cells).Nodup :=
  (kept_nodup_aux cells []).1

theorem kept_mem {cells : List Val} {v : Val} (h : v ∈ cells) :
    v ∈ maskFilter (keepMask cells) cells :=
  kept_mem_aux cells [] v h (by simp)

/-! Lemmas about column lookup and the correction fold. -/

theorem getCol_map (df : Dataset) (f : Column → Column) (c : String)
    (hf : ∀ cl : Column, (f cl).name = cl.name) :
    getCol (df.map f) c = (getCol df c).map f := by
  unfold getCol
  rw [List.find?_map]
  have hp : ((fun col => decide (col.name = c)) ∘ f) = fun col => decide (col.name = c) := by
    funext cl
    simp [Function.comp, hf]
  rw [hp]

theorem getCol_name {df : Dataset} {c : String} {col : Column}
    (h : getCol df c = some col) : col.name = c := by
  unfold getCol at h
  have h2 := List.find?_some h
  simpa using h2

theorem getCol_mem {df : Dataset} {c : String} {col : Column}
    (h : getCol df c = some col) : col ∈ df := by
  unfold getCol at h
  exact List.mem_of_find?_eq_some h

theorem applyCorrections_append (df : Dataset) (r1 r2 : List Issue) :
    applyCorrections df (r1 ++ r2) = applyCorrections (applyCorrections df r1) r2 :=
  List.foldl_append applyRow df r1 r2

theorem applyCorrections_nil (df : Dataset) : applyCorrections df [] = df := rfl

theorem applyCorrections_singleton (df : Dataset) (i : Issue) :
    applyCorrections df [i] = applyRow df i := rfl

end HData

namespace HData

/-! Membership in the full report, and name uniqueness. -/

theorem mem_analyse {df : Dataset} {iss : Issue} :
    iss ∈ analyse_data df ↔ ∃ col ∈ df, iss ∈ colIssues col := by
  rw [analyse_eq_flatMap, List.mem_flatMap]

theorem unique_col {df : Dataset} (hnodup : (df.map Column.name).Nodup)
    {col col2 : Column} (h1 : col ∈ df) (h2 : col2 ∈ df)
    (h : col.name = col2.name) : col = col2 :=
  List.inj_on_of_nodup_map hnodup h1 h2 h

/-! Basic facts about the outlier statistic. -/

theorem nums_mem_of_cell {cells : List Val} {q : ℚ} (h : Val.num q ∈ cells) :
    q ∈ numsOf cells := by
  rw [numsOf, List.mem_filterMap]
  exact ⟨Val.num q, h, rfl⟩

theorem sq_le_sqDevSum {cells : List Val} {q : ℚ} (h : q ∈ numsOf cells) :
    (q - colMean cells) ^ 2 ≤ sqDevSum cells := by
  rw [sqDevSum]
  apply List.single_le_sum
  · intro x hx
    rw [List.mem_map] at hx
    obtain ⟨y, hy, rfl⟩ := hx
    positivity
  · exact List.mem_map.mpr ⟨q, h, rfl⟩

theorem sqDevSum_nonneg (cells : List Val) : 0 ≤ sqDevSum cells := by
  rw [sqDevSum]
  apply List.sum_nonneg
  intro x hx
  rw [List.mem_map] at hx
  obtain ⟨y, hy, rfl⟩ := hx
  positivity

/-- A single value can be more than three sample standard deviations from
the mean only when the column holds at least 11 numeric values: for any
value q of the column, (q - mean)^2 is at most the full sum of squared
deviations, so the test (q - mean)^2 * (n - 1) > 9 * sqDevSum forces
n - 1 > 9.  Hence a column with at most 10 numeric values never reports
outliers. -/
theorem outlierCount_eq_zero_of_small (cells : List Val)
    (h : (numsOf cells).length ≤ 10) : outlierCount cells = 0 := by
  rw [outlierCount, List.countP_eq_zero]
  intro v hv
  cases v with
  | na => simp [isOutlier]
  | txt s => simp [isOutlier]
  | num q =>
    simp only [isOutlier, decide_eq_true_eq, not_and, not_lt]
    intro hn
    have hqmem : q ∈ numsOf cells := nums_mem_of_cell hv
    have hterm : (q - colMean cells) ^ 2 ≤ sqDevSum cells := sq_le_sqDevSum hqmem
    have hS : 0 ≤ sqDevSum cells := sqDevSum_nonneg cells
    have hn9 : (((numsOf cells).length - 1 : ℕ) : ℚ) ≤ 9 := by
      have h9 : (numsOf cells).length - 1 ≤ 9 := by omega
      exact_mod_cast h9
    have hn0 : (0 : ℚ) ≤ (((numsOf cells).length - 1 : ℕ) : ℚ) := Nat.cast_nonneg _
    calc (q - colMean cells) ^ 2 * (((numsOf cells).length - 1 : ℕ) : ℚ)
        ≤ sqDevSum cells * 9 := mul_le_mul hterm hn9 hn0 hS
      _ = 9 * sqDevSum cells := by ring

end HData

namespace HData

/-! Concrete datasets used by the test-vector claims and the witnesses. -/

/-- The column B = [10, 12, 11, 13, 1000] of spec section 8. -/
def cellsB : List Val :=
  [Val.num 10, Val.num 12, Val.num 11, Val.num 13, Val.num 1000]

/-- The column B = [1, ..., 9, 1000] of spec section 8. -/
def cellsB10 : List Val :=
  [Val.num 1, Val.num 2, Val.num 3, Val.num 4, Val.num 5, Val.num 6, Val.num 7,
   Val.num 8, Val.num 9, Val.num 1000]

/-- The column C = [5, 5, 7, 5, 9] of spec section 8. -/
def cellsC : List Val :=
  [Val.num 5, Val.num 5, Val.num 7, Val.num 5, Val.num 9]

def dsB : Dataset := [⟨"B", true, cellsB⟩]

def dsB10 : Dataset := [⟨"B", true, cellsB10⟩]

def dsC : Dataset := [⟨"C", true, cellsC⟩]

/-- A numeric column with one missing value between 1 and 3. -/
def cells0 : List Val := [Val.num 1, Val.na, Val.num 3]

def ds0 : Dataset := [⟨"A", true, cells0⟩]

/-- A dataset with an empty diagnostic report. -/
def dsClean : Dataset := [⟨"A", true, [Val.num 1, Val.num 2]⟩]

/-- A one-row numeric column whose only cell is missing. -/
def dsNa : Dataset := [⟨"A", true, [Val.na]⟩]

/-- Column C together with a second, non-numeric column, so that the
duplicate row-drop is observable across columns. -/
def cellsD : List Val :=
  [Val.txt "a", Val.txt "b", Val.txt "c", Val.txt "d", Val.txt "e"]

def dsC7 : Dataset := [⟨"C", true, cellsC⟩, ⟨"D", false, cellsD⟩]

/-- A column with two missing cells around a number. -/
def cellsW : List Val := [Val.na, Val.num 1, Val.na]

/-! Evaluation lemmas on the concrete datasets.  Everything except the
outlier statistic and the median reduces by kernel computation; the
outlier counts are zero by `outlierCount_eq_zero_of_small` since every
test column has at most 10 numeric values. -/

theorem analyse_dsB : analyse_data dsB = [] := by
  rw [analyse_eq_flatMap]
  simp [dsB, colIssues, outlierCount_eq_zero_of_small cellsB (by decide),
    show missingCount cellsB = 0 from rfl, show hasDup cellsB = false from rfl]

theorem analyse_dsB10 : analyse_data dsB10 = [] := by
  rw [analyse_eq_flatMap]
  simp [dsB10, colIssues, outlierCount_eq_zero_of_small cellsB10 (by decide),
    show missingCount cellsB10 = 0 from rfl, show hasDup cellsB10 = false from rfl]

theorem analyse_dsC :
    analyse_data dsC = [⟨"C", Problem.doublons, 2, proposal Problem.doublons⟩] := by
  rw [analyse_eq_flatMap]
  simp [dsC, colIssues, outlierCount_eq_zero_of_small cellsC (by decide),
    show missingCount cellsC = 0 from rfl, show hasDup cellsC = true from rfl,
    show dupCount cellsC = 2 from rfl]

theorem analyse_dsC7 :
    analyse_data dsC7 = [⟨"C", Problem.doublons, 2, proposal Problem.doublons⟩] := by
  rw [analyse_eq_flatMap]
  simp [dsC7, colIssues, outlierCount_eq_zero_of_small cellsC (by decide),
    show missingCount cellsC = 0 from rfl, show hasDup cellsC = true from rfl,
    show dupCount cellsC = 2 from rfl,
    show outlierCount cellsD = 0 from rfl,
    show missingCount cellsD = 0 from rfl, show hasDup cellsD = false from rfl]

theorem analyse_ds0 :
    analyse_data ds0 = [⟨"A", Problem.manquantes, 1, proposal Problem.manquantes⟩] := by
  rw [analyse_eq_flatMap]
  simp [ds0, colIssues, outlierCount_eq_zero_of_small cells0 (by decide),
    show missingCount cells0 = 1 from rfl, show hasDup cells0 = false from rfl]

theorem analyse_dsClean : analyse_data dsClean = [] := by
  rw [analyse_eq_flatMap]
  simp [dsClean, colIssues,
    outlierCount_eq_zero_of_small [Val.num 1, Val.num 2] (by decide),
    show missingCount [Val.num 1, Val.num 2] = 0 from rfl,
    show hasDup [Val.num 1, Val.num 2] = false from rfl]

theorem analyse_dsNa :
    analyse_data dsNa = [⟨"A", Problem.manquantes, 1, proposal Problem.manquantes⟩] := by
  rw [analyse_eq_flatMap]
  simp [dsNa, colIssues, show outlierCount [Val.na] = 0 from rfl,
    show missingCount [Val.na] = 1 from rfl, show hasDup [Val.na] = false from rfl]

theorem medianQ_one_three : medianQ [(1 : ℚ), 3] = 2 := by
  unfold medianQ
  norm_num [List.insertionSort, List.orderedInsert]

theorem medianVal_cells0 : medianVal cells0 = Val.num 2 := by
  have hnums : numsOf cells0 = [(1 : ℚ), 3] := rfl
  rw [medianVal, hnums, if_neg (by simp), medianQ_one_three]

theorem correction_ds0 :
    applyCorrections ds0 (analyse_data ds0) =
      [⟨"A", true, [Val.num 1, Val.num 2, Val.num 3]⟩] := by
  rw [analyse_ds0, applyCorrections_singleton]
  simp [applyRow, ds0, fillnaMedian, cells0,
    show medianVal [Val.num 1, Val.na, Val.num 3] = Val.num 2 from medianVal_cells0]

end HData

namespace HData

/-- C1: the diagnostic report of `analyse_data` is exactly the
concatenation, in column iteration order, of each column's issues in the
fixed per-column order missing values, then outliers, then duplicates;
and, for datasets with distinct column names, the report contains an
issue for a (column, kind) pair if and only if the detection predicate of
spec section 4.1 holds for that column: positive missing count, a numeric
column with a value more than three sample standard deviations from the
mean, or a value repeating an earlier value of the same column. -/
theorem analyse_report_characterisation (df : Dataset)
    (hnodup : (df.map Column.name).Nodup) :
    analyse_data df = df.flatMap colIssues ∧
    ∀ col ∈ df, ∀ p : Problem,
      ((∃ cnt prop, (⟨col.name, p, cnt, prop⟩ : Issue) ∈ analyse_data df) ↔
        specTrigger p col) := by
  refine ⟨analyse_eq_flatMap df, ?_⟩
  intro col hcol p
  constructor
  · rintro ⟨cnt, prop, hmem⟩
    rw [mem_analyse] at hmem
    obtain ⟨col2, hcol2, hiss⟩ := hmem
    have hname : col.name = col2.name := colIssues_column hiss
    obtain rfl : col2 = col := unique_col hnodup hcol2 hcol hname.symm
    rcases mem_colIssues.mp hiss with ⟨ht, heq⟩ | ⟨ht, heq⟩ | ⟨ht, heq⟩ <;>
      simp only [Issue.mk.injEq] at heq <;>
      obtain ⟨-, rfl, -, -⟩ := heq
    · exact ht
    · rw [specTrigger]
      refine ⟨ht.1, ?_⟩
      have := ht.2
      rw [outlierCount, List.countP_pos_iff] at this
      exact this
    · rw [specTrigger]
      exact hasDup_iff.mp ht
  · intro htrig
    cases p with
    | manquantes =>
      exact ⟨missingCount col.cells, proposal Problem.manquantes,
        mem_analyse.mpr ⟨col, hcol, mem_colIssues.mpr (Or.inl ⟨htrig, rfl⟩)⟩⟩
    | aberrantes =>
      rw [specTrigger] at htrig
      have hcnt : 0 < outlierCount col.cells := by
        rw [outlierCount, List.countP_pos_iff]
        exact htrig.2
      exact ⟨outlierCount col.cells, proposal Problem.aberrantes,
        mem_analyse.mpr ⟨col, hcol,
          mem_colIssues.mpr (Or.inr (Or.inl ⟨⟨htrig.1, hcnt⟩, rfl⟩))⟩⟩
    | doublons =>
      rw [specTrigger] at htrig
      exact ⟨dupCount col.cells, proposal Problem.doublons,
        mem_analyse.mpr ⟨col, hcol,
          mem_colIssues.mpr (Or.inr (Or.inr ⟨hasDup_iff.mpr htrig, rfl⟩))⟩⟩

/-- Witness for C1 at the concrete two-column dataset dsC7. -/
theorem analyse_report_characterisation_witness :
    analyse_data dsC7 = dsC7.flatMap colIssues :=
  (analyse_report_characterisation dsC7 (by decide)).1

end HData

namespace HData

/-- C3 counterexample: on both test columns of the claim the diagnosis
reports no issue at all — in particular no Outliers issue with count 1 —
because with the sample standard deviation (pandas std, ddof = 1) no
value of either column is more than three standard deviations from the
mean. -/
theorem outlier_testvector_cex :
    analyse_data dsB = [] ∧ analyse_data dsB10 = [] :=
  ⟨analyse_dsB, analyse_dsB10⟩

/-- C3 amended: for B = [10, 12, 11, 13, 1000] and for
B = [1, ..., 9, 1000] the 3-sigma test marks no value, since a lone
extreme among at most 10 samples is at most (n-1)/sqrt(n) < 3 sample
standard deviations from the mean. -/
theorem outlier_testvector_amended :
    outlierCount cellsB = 0 ∧ outlierCount cellsB10 = 0 :=
  ⟨outlierCount_eq_zero_of_small cellsB (by decide),
   outlierCount_eq_zero_of_small cellsB10 (by decide)⟩

/-- C6: for every column, the duplicates count of the diagnosis plus the
number of distinct values equals the total number of cells (that is, the
count is total occurrences minus distinct values); and for the column
C = [5, 5, 7, 5, 9] the diagnosis reports a Duplicates issue with
count 2. -/
theorem dup_count_total_minus_distinct :
    (∀ cells : List Val, dupCount cells + cells.dedup.length = cells.length) ∧
    analyse_data dsC = [⟨"C", Problem.doublons, 2, proposal Problem.doublons⟩] :=
  ⟨dupCount_add_dedup, analyse_dsC⟩

/-- C2 counterexample: the correction block runs in place (fillna with
inplace=True, assignment to df[col], drop_duplicates with inplace=True on
the script's only dataframe binding), so for a dataset with a fillable
missing value the caller's dataframe after the block differs from the
dataset that was passed in: no unchanged original remains. -/
theorem correction_mutates_cex : (runCorrectionBlock ⟨ds0⟩).df ≠ ds0 := by
  rw [runCorrectionBlock]
  show applyCorrections ds0 (analyse_data ds0) ≠ ds0
  rw [correction_ds0]
  decide

/-- C2 amended: the correction block overwrites the caller's single
dataframe binding with the corrected dataset, so the dataset visible
after the call is the corrected one; it coincides with the dataset passed
in only when the remedies change nothing, in particular whenever the
diagnostic report is empty. -/
theorem correction_block_overwrites (st : AppState) :
    (runCorrectionBlock st).df = applyCorrections st.df (analyse_data st.df) ∧
    (analyse_data st.df = [] → runCorrectionBlock st = st) := by
  refine ⟨rfl, fun h => ?_⟩
  cases st with
  | mk df => simp [runCorrectionBlock, h, applyCorrections_nil]

/-- Witness for C2 at the concrete clean dataset dsClean. -/
theorem correction_block_overwrites_witness :
    runCorrectionBlock ⟨dsClean⟩ = (⟨dsClean⟩ : AppState) :=
  (correction_block_overwrites ⟨dsClean⟩).2 analyse_dsClean

end HData

namespace HData

/-- C4: when the correction loop reaches an Outliers row for column c
(after already processing the rows r1, which may include the earlier
missing-value fill of the same column), it transforms the current
dataset: in the column named c, with cells cs as they stand at that
point, every cell passing the 3-sigma test `isOutlier cs` — whose mean
and standard deviation are recomputed from cs — is replaced by
`medianVal cs`, the median over all current values including the outliers
being replaced, and the loop then continues with the remaining rows. -/
theorem outlier_remedy_recomputes (ds : Dataset) (r1 r2 : List Issue)
    (c rem : String) (n : ℕ) :
    applyCorrections ds (r1 ++ ⟨c, Problem.aberrantes, n, rem⟩ :: r2) =
      applyCorrections
        ((applyCorrections ds r1).map fun cl =>
          if cl.name = c then
            { cl with cells := cl.cells.map fun v =>
                if isOutlier cl.cells v then medianVal cl.cells else v }
          else cl) r2 := by
  rw [applyCorrections_append]
  rfl

/-- C9: when the correction loop reaches a MissingValues row for column c
and every column of the current dataset named c is non-numeric, the fill
step is a no-op (the dtype re-check of src/app.py line 95 fails) and the
loop continues with the remaining rows of the report applied to the
unchanged dataset; nothing fails or aborts. -/
theorem missing_remedy_nonnumeric_noop (ds : Dataset) (r1 r2 : List Issue)
    (c rem : String) (n : ℕ)
    (h : ∀ cl ∈ applyCorrections ds r1, cl.name = c → cl.numeric = false) :
    applyCorrections ds (r1 ++ ⟨c, Problem.manquantes, n, rem⟩ :: r2) =
      applyCorrections (applyCorrections ds r1) r2 := by
  rw [applyCorrections_append]
  show applyCorrections
      (applyRow (applyCorrections ds r1) ⟨c, Problem.manquantes, n, rem⟩) r2 =
    applyCorrections (applyCorrections ds r1) r2
  have hstep : applyRow (applyCorrections ds r1) ⟨c, Problem.manquantes, n, rem⟩ =
      applyCorrections ds r1 := by
    show (applyCorrections ds r1).map (fun cl =>
        if cl.name = c ∧ cl.numeric = true then
          { cl with cells := fillnaMedian cl.cells } else cl) =
      applyCorrections ds r1
    have hid : ∀ cl ∈ applyCorrections ds r1,
        (if cl.name = c ∧ cl.numeric = true then
          { cl with cells := fillnaMedian cl.cells } else cl) = cl := by
      intro cl hcl
      rw [if_neg]
      rintro ⟨h1, h2⟩
      rw [h cl hcl h1] at h2
      cases h2
    calc (applyCorrections ds r1).map (fun cl =>
            if cl.name = c ∧ cl.numeric = true then
              { cl with cells := fillnaMedian cl.cells } else cl)
        = (applyCorrections ds r1).map id := List.map_congr_left hid
      _ = applyCorrections ds r1 := List.map_id _
  rw [hstep]

/-- Witness for C9: a missing-values row for the non-numeric column D of
dsC7 leaves the dataset unchanged. -/
theorem missing_remedy_nonnumeric_noop_witness :
    applyCorrections dsC7
        ([] ++ ⟨"D", Problem.manquantes, 1, proposal Problem.manquantes⟩ :: []) =
      applyCorrections (applyCorrections dsC7 []) [] :=
  missing_remedy_nonnumeric_noop dsC7 [] [] ("D") (proposal Problem.manquantes) 1
    (by decide)

end HData

namespace HData

/-! Lemmas about the median fill. -/

theorem fillnaMedian_length (cells : List Val) :
    (fillnaMedian cells).length = cells.length := by
  simp [fillnaMedian]

theorem fillnaMedian_missingCount {cells : List Val} (h : numsOf cells ≠ []) :
    missingCount (fillnaMedian cells) = 0 := by
  rw [missingCount, List.countP_eq_zero]
  intro v hv
  rw [fillnaMedian, List.mem_map] at hv
  obtain ⟨w, hw, rfl⟩ := hv
  by_cases hna : w = Val.na
  · simp [hna, medianVal, h]
  · simp [hna]

theorem fillnaMedian_getD {cells : List Val} {i : ℕ} (hi : i < cells.length)
    (hna : cells.getD i Val.na = Val.na) :
    (fillnaMedian cells).getD i Val.na = medianVal cells := by
  have hi2 : i < (fillnaMedian cells).length := by
    rw [fillnaMedian_length]
    exact hi
  rw [List.getD_eq_getElem _ Val.na hi2]
  rw [List.getD_eq_getElem _ Val.na hi] at hna
  simp only [fillnaMedian, List.getElem_map]
  simp [hna]

/-- The effect of one missing-values row on the looked-up column. -/
theorem applyRow_manquantes_getCol (ds : Dataset) (c rem : String) (k : ℕ)
    (col : Column) (hcol : getCol ds c = some col) :
    getCol (applyRow ds ⟨c, Problem.manquantes, k, rem⟩) c =
      some (if col.name = c ∧ col.numeric = true then
        { col with cells := fillnaMedian col.cells } else col) := by
  show getCol (ds.map fun cl2 => if cl2.name = c ∧ cl2.numeric = true then
      { cl2 with cells := fillnaMedian cl2.cells } else cl2) c = _
  rw [getCol_map ds _ c (by intro cl2; split_ifs <;> rfl), hcol]
  rfl

/-- C5 counterexample: a one-row numeric column whose single cell is
missing triggers exactly one MissingValues issue, yet the correction
leaves the dataset unchanged — the median of an empty selection is NaN
and filling missing cells with NaN is a no-op — so the corrected column
still has a missing value, against the claimed zero. -/
theorem missing_fill_cex :
    analyse_data dsNa = [⟨"A", Problem.manquantes, 1, proposal Problem.manquantes⟩] ∧
    applyCorrections dsNa (analyse_data dsNa) = dsNa ∧
    0 < missingCount [Val.na] := by
  refine ⟨analyse_dsNa, ?_, by decide⟩
  rw [analyse_dsNa, applyCorrections_singleton]
  decide

/-- C5 amended: when the diagnostic report consists of exactly one
MissingValues issue, for a numeric column that has at least one
non-missing numeric value, the corrected dataset's column has zero
missing cells, the row count is unchanged, and every previously-missing
cell now holds the median of the column's pre-correction non-missing
values. -/
theorem missing_fill_roundtrip (ds : Dataset) (c rem : String) (k : ℕ)
    (col : Column)
    (hrep : analyse_data ds = [⟨c, Problem.manquantes, k, rem⟩])
    (hcol : getCol ds c = some col)
    (hnum : col.numeric = true)
    (hne : numsOf col.cells ≠ []) :
    ∃ cl, getCol (applyCorrections ds (analyse_data ds)) c = some cl ∧
      missingCount cl.cells = 0 ∧
      cl.cells.length = col.cells.length ∧
      ∀ i : ℕ, i < col.cells.length → col.cells.getD i Val.na = Val.na →
        cl.cells.getD i Val.na = Val.num (medianQ (numsOf col.cells)) := by
  rw [hrep, applyCorrections_singleton]
  have hc : col.name = c := getCol_name hcol
  have hgc := applyRow_manquantes_getCol ds c rem k col hcol
  rw [if_pos ⟨hc, hnum⟩] at hgc
  refine ⟨{ col with cells := fillnaMedian col.cells }, hgc, ?_, ?_, ?_⟩
  · exact fillnaMedian_missingCount hne
  · exact fillnaMedian_length col.cells
  · intro i hi hna
    show (fillnaMedian col.cells).getD i Val.na = _
    rw [fillnaMedian_getD hi hna, medianVal, if_neg hne]

/-- Witness for C5 at the concrete dataset ds0: the missing cell of
column A is filled by the median of the present values. -/
theorem missing_fill_roundtrip_witness :
    ∃ cl, getCol (applyCorrections ds0 (analyse_data ds0)) ("A") = some cl ∧
      missingCount cl.cells = 0 ∧
      cl.cells.getD 1 Val.na = Val.num (medianQ (numsOf cells0)) := by
  obtain ⟨cl, h1, h2, h3, h4⟩ :=
    missing_fill_roundtrip ds0 ("A") (proposal Problem.manquantes) 1
      ⟨"A", true, cells0⟩ analyse_ds0 (by decide) rfl (by decide)
  exact ⟨cl, h1, h2, h4 1 (by decide) (by decide)⟩

end HData

namespace HData

/-- When a report has exactly one row, that row belongs to the issues of
the (unique) column it names. -/
theorem report_singleton_col (df : Dataset) (iss : Issue) (col : Column)
    (hnodup : (df.map Column.name).Nodup)
    (hrep : analyse_data df = [iss])
    (hcol : getCol df iss.column = some col) :
    iss ∈ colIssues col := by
  have hmem : iss ∈ analyse_data df := by
    rw [hrep]
    exact List.mem_singleton_self iss
  rw [mem_analyse] at hmem
  obtain ⟨col2, hc2, hiss⟩ := hmem
  have hname : iss.column = col2.name := colIssues_column hiss
  have hcname : col.name = iss.column := getCol_name hcol
  obtain rfl : col2 = col :=
    unique_col hnodup hc2 (getCol_mem hcol) (hname.symm.trans hcname.symm)
  exact hiss

/-- C7: when the diagnostic report consists of exactly one Duplicates
issue with count 2 for column c, the corrected dataset has exactly 2
fewer rows in every column, and the keyed column keeps precisely the rows
whose value is not a repeat of an earlier value, hence holds pairwise
distinct values. -/
theorem duplicate_removal_shrinks (ds : Dataset) (c rem : String) (col : Column)
    (hnodup : (ds.map Column.name).Nodup)
    (hrep : analyse_data ds = [⟨c, Problem.doublons, 2, rem⟩])
    (hcol : getCol ds c = some col)
    (hrect : ∀ cl ∈ ds, cl.cells.length = col.cells.length) :
    (∀ cl ∈ applyCorrections ds (analyse_data ds),
      cl.cells.length + 2 = col.cells.length) ∧
    (∃ cl, getCol (applyCorrections ds (analyse_data ds)) c = some cl ∧
      cl.cells = maskFilter (keepMask col.cells) col.cells ∧ cl.cells.Nodup) := by
  have hiss : (⟨c, Problem.doublons, 2, rem⟩ : Issue) ∈ colIssues col :=
    report_singleton_col ds ⟨c, Problem.doublons, 2, rem⟩ col hnodup hrep hcol
  have hdc : dupCount col.cells = 2 := by
    rcases mem_colIssues.mp hiss with ⟨-, heq⟩ | ⟨-, heq⟩ | ⟨-, heq⟩
    · simp at heq
    · simp at heq
    · simp only [Issue.mk.injEq] at heq
      exact heq.2.2.1.symm
  rw [hrep, applyCorrections_singleton]
  have hstep : applyRow ds ⟨c, Problem.doublons, 2, rem⟩ = dropDuplicates ds c := rfl
  rw [hstep]
  have hdrop : dropDuplicates ds c =
      ds.map fun cl => { cl with cells := maskFilter (keepMask col.cells) cl.cells } := by
    rw [dropDuplicates, hcol]
  rw [hdrop]
  constructor
  · intro cl hcl
    rw [List.mem_map] at hcl
    obtain ⟨cl0, hcl0, rfl⟩ := hcl
    have hlen0 : (keepMask col.cells).length = cl0.cells.length := by
      rw [keepMask_length, hrect cl0 hcl0]
    have hml : (maskFilter (keepMask col.cells) cl0.cells).length =
        (keepMask col.cells).count true := maskFilter_length _ _ hlen0
    have hkc := keepMask_count col.cells
    rw [hdc] at hkc
    show (maskFilter (keepMask col.cells) cl0.cells).length + 2 = col.cells.length
    rw [hml]
    exact hkc
  · refine ⟨{ col with cells := maskFilter (keepMask col.cells) col.cells }, ?_, rfl,
      kept_nodup col.cells⟩
    rw [getCol_map ds
      (fun cl => { cl with cells := maskFilter (keepMask col.cells) cl.cells }) c
      (fun cl => rfl), hcol]
    rfl

/-- Witness for C7 at the concrete two-column dataset dsC7. -/
theorem duplicate_removal_shrinks_witness :
    ∃ cl, getCol (applyCorrections dsC7 (analyse_data dsC7)) ("C") = some cl ∧
      cl.cells = maskFilter (keepMask cellsC) cellsC ∧ cl.cells.Nodup :=
  (duplicate_removal_shrinks dsC7 ("C") (proposal Problem.doublons)
    ⟨"C", true, cellsC⟩ (by decide) analyse_dsC7 (by decide) (by decide)).2

/-- C8: a numeric column whose standard deviation is zero (zero sum of
squared deviations) or undefined (fewer than two numeric values) has
outlier count zero, and the report of any dataset with distinct column
names containing it holds no Outliers issue for it; the case is an
ordinary computation, not an error. -/
theorem no_outlier_issue_degenerate (df : Dataset) (col : Column)
    (hnodup : (df.map Column.name).Nodup) (hmem : col ∈ df)
    (hnum : col.numeric = true)
    (hdeg : (numsOf col.cells).length ≤ 1 ∨ sqDevSum col.cells = 0) :
    outlierCount col.cells = 0 ∧
    ∀ cnt prop,
      (⟨col.name, Problem.aberrantes, cnt, prop⟩ : Issue) ∉ analyse_data df := by
  have hzero : outlierCount col.cells = 0 := by
    rcases hdeg with hle | hS0
    · exact outlierCount_eq_zero_of_small col.cells (by omega)
    · rw [outlierCount, List.countP_eq_zero]
      intro v hv
      cases v with
      | na => simp [isOutlier]
      | txt s => simp [isOutlier]
      | num q =>
        simp only [isOutlier, decide_eq_true_eq, not_and, not_lt]
        intro hn
        have hterm : (q - colMean col.cells) ^ 2 ≤ sqDevSum col.cells :=
          sq_le_sqDevSum (nums_mem_of_cell hv)
        have hzero2 : (q - colMean col.cells) ^ 2 = 0 :=
          le_antisymm (hS0 ▸ hterm) (by positivity)
        rw [hzero2, hS0]
        simp
  refine ⟨hzero, ?_⟩
  intro cnt prop hmemiss
  rw [mem_analyse] at hmemiss
  obtain ⟨col2, hc2, hiss⟩ := hmemiss
  have hname : (⟨col.name, Problem.aberrantes, cnt, prop⟩ : Issue).column = col2.name :=
    colIssues_column hiss
  obtain rfl : col2 = col := unique_col hnodup hc2 hmem hname.symm
  rcases mem_colIssues.mp hiss with ⟨-, heq⟩ | ⟨ht, heq⟩ | ⟨-, heq⟩
  · simp at heq
  · rw [hzero] at ht
    exact absurd ht.2 (lt_irrefl 0)
  · simp at heq

def colZ : Column := ⟨"Z", true, [Val.num 7]⟩

/-- Witness for C8 at a one-value numeric column (undefined std). -/
theorem no_outlier_issue_degenerate_witness : outlierCount [Val.num 7] = 0 :=
  (no_outlier_issue_degenerate [colZ] colZ (by decide) (by decide) rfl
    (Or.inl (by decide))).1

/-- C10: missing compares equal to missing in the duplicate logic: a
missing cell with an earlier missing cell in the same column is flagged
by duplicated (so the Duplicates count is positive and counts it), its
row is excluded by the drop_duplicates keep mask, and after the
duplicate-removal the column retains exactly one missing cell — the one
of the first missing row. -/
theorem na_counts_as_duplicate (cells : List Val) (i j : ℕ)
    (hi : i < cells.length) (hj : j < i)
    (hina : cells.getD i Val.na = Val.na) (hjna : cells.getD j Val.na = Val.na) :
    (duplicated cells).getD i false = true ∧
    0 < dupCount cells ∧
    (keepMask cells).getD i false = false ∧
    (maskFilter (keepMask cells) cells).count Val.na = 1 := by
  have hjlen : j < cells.length := lt_trans hj hi
  have hflag : (duplicated cells).getD i false = true := by
    rw [duplicated_getD hi, decide_eq_true_eq, hina, List.mem_take_iff_getElem]
    refine ⟨j, lt_inf_iff.mpr ⟨hj, hjlen⟩, ?_⟩
    rw [← List.getD_eq_getElem cells Val.na hjlen]
    exact hjna
  have hi2 : i < (duplicated cells).length := by
    rw [duplicated_length]
    exact hi
  have hflagElem : (duplicated cells)[i] = true := by
    rw [← List.getD_eq_getElem _ false hi2]
    exact hflag
  refine ⟨hflag, ?_, ?_, ?_⟩
  · rw [dupCount, List.count_pos_iff]
    rw [← hflagElem]
    exact List.getElem_mem hi2
  · have hi3 : i < (keepMask cells).length := by
      rw [keepMask_length]
      exact hi
    rw [List.getD_eq_getElem _ false hi3]
    simp only [keepMask, List.getElem_map]
    rw [hflagElem]
    rfl
  · have hcell : cells[i] = Val.na := by
      rw [← List.getD_eq_getElem cells Val.na hi]
      exact hina
    have hmemna : Val.na ∈ cells := by
      rw [← hcell]
      exact List.getElem_mem hi
    exact List.count_eq_one_of_mem (kept_nodup cells) (kept_mem hmemna)

/-- Witness for C10 at the column [na, 1, na]: the second missing cell
(index 2) repeats the first (index 0). -/
theorem na_counts_as_duplicate_witness :
    (duplicated cellsW).getD 2 false = true ∧ 0 < dupCount cellsW ∧
    (keepMask cellsW).getD 2 false = false ∧
    (maskFilter (keepMask cellsW) cellsW).count Val.na = 1 :=
  na_counts_as_duplicate cellsW 2 0 (by decide) (by decide) (by decide) (by decide)

end HData
